import Mathlib

set_option maxRecDepth 40000

/-!
Verification development for the firmware image engine of the `munifying`
repository (file `unifying/firmware.go`, Go).  The Go code is shallowly
embedded: byte slices become `List Nat` (each element models one byte),
the `uint16` struct fields become `Nat` with an explicit `% 0x10000` at
every assignment that Go performs with `uint16` arithmetic, Go `error`
returns become `Option String` / `Except String`, and Go runtime panics
(out-of-range slice indexing and slicing) become the dedicated
`GoResult.crash` outcome.
-/

/-- Result of running a piece of Go code: either it returns a value, or the
Go runtime panics (out-of-range index, out-of-range slice bounds).  The
`crash` constructor models a runtime panic that aborts the process. -/
inductive GoResult (α : Type) where
  | ok : α → GoResult α
  | crash : GoResult α
deriving DecidableEq, Repr

deriving instance DecidableEq for Except

/-- Firmware target type enum (`FirmwareTargetType` in the source):
UNKNOWN = 0x00, NORDIC = 0x01, TI = 0x02. -/
inductive FirmwareTargetType where
  | unknown
  | nordic
  | ti
deriving DecidableEq, Repr

/-- The `Firmware` struct of the source.  `rawData` models the `RawData`
byte slice; `rawNil` records whether that slice is Go `nil` (the loader
tests `f.RawData == nil` to seed `StartOffset`; a trimmed or assigned
slice is never nil).  `size`, `startOffset`, `lastOffset`, `crc`,
`tailPos` model the `uint16` fields; `signature` models the fixed
`[256]byte` array. -/
structure Firmware where
  rawData : List Nat
  rawNil : Bool
  size : Nat
  startOffset : Nat
  lastOffset : Nat
  hasBL : Bool
  crc : Nat
  tailPos : Nat
  signature : List Nat
  hasSignature : Bool
  targetType : FirmwareTargetType
deriving DecidableEq, Repr

/-- Zero value of the `Firmware` struct (`&Firmware{}` / `f := &Firmware{}`
in the source): nil data slice, all numeric fields 0, signature array of
256 zero bytes. -/
def Firmware.init : Firmware :=
  { rawData := []
    rawNil := true
    size := 0
    startOffset := 0
    lastOffset := 0
    hasBL := false
    crc := 0
    tailPos := 0
    signature := List.replicate 256 0
    hasSignature := false
    targetType := .unknown }

/-- One shift-and-conditionally-xor round of the CRC-16 table generator of
the `sigurn/crc16` library (polynomial 0x1021, most-significant-bit first,
`uint16` arithmetic). -/
def crcRound (c : Nat) : Nat :=
  if Nat.testBit c 15 then ((c * 2) ^^^ 0x1021) % 0x10000 else (c * 2) % 0x10000

/-- Entry `n` of the CRC-16/CCITT-FALSE table built by
`crc16.MakeTable(crc16.CRC16_CCITT_FALSE)`: start from `n << 8` and apply
eight generator rounds. -/
def crcTableEntry (n : Nat) : Nat :=
  crcRound^[8] ((n * 256) % 0x10000)

/-- One byte step of `crc16.Update` for a non-reflected table:
`crc = crc<<8 ^ table[byte(crc>>8) ^ d]` in `uint16` arithmetic. -/
def crc16Update (crc b : Nat) : Nat :=
  ((crc * 256) % 0x10000) ^^^ crcTableEntry (((crc / 256) ^^^ b) % 256)

/-- The function `crc16.Checksum(data, crc16.MakeTable(crc16.CRC16_CCITT_FALSE))`:
CRC-16/CCITT-FALSE, initial value 0xFFFF, xorout 0, no reflection. -/
def crc16 (data : List Nat) : Nat :=
  data.foldl crc16Update 0xFFFF

/-- The Go builtin `copy(dst[pos:], src)` on byte slices: writes the bytes
of `src` into `dst` starting at index `pos`, stopping at the end of `dst`
or the end of `src`, and leaves the length of `dst` unchanged. -/
def copyInto : List Nat → Nat → List Nat → List Nat
  | [], _, _ => []
  | d :: ds, 0, [] => d :: ds
  | _ :: ds, 0, s :: ss => s :: copyInto ds 0 ss
  | d :: ds, p + 1, src => d :: copyInto ds p src

/-- The function `strings.Index` specialised to byte sequences: index of
the leftmost occurrence of `pat` in `s`, or `none` when `pat` does not
occur (Go returns -1). -/
def findSeq (pat : List Nat) : List Nat → Option Nat
  | [] => if pat.isPrefixOf ([] : List Nat) then some 0 else none
  | a :: t =>
    if pat.isPrefixOf (a :: t) then some 0
    else (findSeq pat t).map (· + 1)

/-- The function `bytes.Replace(s, old, new, -1)`: replace every leftmost
non-overlapping occurrence of `old` in `s` by `new`.  (For `old = []` Go
would interleave `new` everywhere; the patcher only uses non-empty
patterns, and this embedding returns `s` unchanged in that degenerate
case.) -/
def replaceAll (old new : List Nat) : List Nat → List Nat
  | [] => []
  | a :: t =>
    if h : old ≠ [] ∧ old.isPrefixOf (a :: t) then
      new ++ replaceAll old new ((a :: t).drop old.length)
    else
      a :: replaceAll old new t
termination_by s => s.length
decreasing_by
  · simp only [List.length_drop, List.length_cons]
    have hne : old.length ≠ 0 := by
      intro hz
      exact h.1 (List.length_eq_zero.mp hz)
    omega
  · simp

/-- Value of one hexadecimal digit character, as decoded by
`encoding/hex` (accepts 0-9, a-f, A-F). -/
def hexDigitVal (c : Char) : Option Nat :=
  if '0' ≤ c ∧ c ≤ '9' then some (c.toNat - 48)
  else if 'a' ≤ c ∧ c ≤ 'f' then some (c.toNat - 97 + 10)
  else if 'A' ≤ c ∧ c ≤ 'F' then some (c.toNat - 65 + 10)
  else none

/-- The function `hex.DecodeString`: decode pairs of hex digits into
bytes; an odd number of digits or an invalid digit yields an error
(modelled as `none`; the caller skips such lines). -/
def hexDecode : List Char → Option (List Nat)
  | [] => some []
  | [_] => none
  | c1 :: c2 :: rest =>
    match hexDigitVal c1, hexDigitVal c2, hexDecode rest with
    | some h, some l, some bs => some ((h * 16 + l) :: bs)
    | _, _, _ => none

/-- Addition as Go performs it on `uint16` operands. -/
def add16 (a b : Nat) : Nat := (a + b) % 0x10000

/-- Subtraction as Go performs it on `uint16` operands (wraps around). -/
def sub16 (a b : Nat) : Nat := ((a % 0x10000) + 0x10000 - (b % 0x10000)) % 0x10000

/-- Data-record branch (`case 0x00`) of `(*Firmware).pushRawHexLine`:
seed `startOffset` and the buffer when `RawData` is still nil, grow the
buffer with 0xFF padding up to `addr + length`, copy the record bytes in
at `addr`, lower `startOffset` to the minimum address seen, and extend
`size`/`lastOffset` when `uint16(resultsize)` exceeds
`size + startOffset` (all `uint16` arithmetic). -/
def pushData (f : Firmware) (addr : Nat) (data : List Nat) : Firmware :=
  let f1 := if f.rawNil then
      { f with startOffset := addr % 0x10000, rawData := [], rawNil := false }
    else f
  let f2 := if f1.rawData.length < addr + data.length then
      { f1 with
         rawData := f1.rawData ++ List.replicate (addr + data.length - f1.rawData.length) 0xFF }
    else f1
  let f3 := { f2 with rawData := copyInto f2.rawData addr data }
  let f4 := if addr % 0x10000 < f3.startOffset then
      { f3 with startOffset := addr % 0x10000 }
    else f3
  if (addr + data.length) % 0x10000 > add16 f4.size f4.startOffset then
    let sz := sub16 (addr + data.length) f4.startOffset
    { f4 with size := sz, lastOffset := sub16 (add16 f4.startOffset sz) 1 }
  else f4

/-- Signature-record branch (`case 0xfd`) of `pushRawHexLine`:
`HasSignature` is set before the bounds check; a record whose
`addr + length` exceeds 0x100 is rejected without copying; otherwise the
data is copied into the 256-byte signature array at `addr`. -/
def pushSignature (f : Firmware) (addr : Nat) (data : List Nat) :
    Firmware × Option String :=
  let f1 := { f with hasSignature := true }
  if addr + data.length > 0x100 then
    (f1, some "invalid signature data, out of bounds")
  else
    ({ f1 with signature := copyInto f1.signature addr data }, none)

/-- Entry of `pushRawHexLine`: header validation, the panicking data
slice, and the dispatch on the record type (the data and signature
branches are `pushData` and `pushSignature`; in both, the slice
`hexline[4 : 4+length]` has exactly `length` bytes, so
`resultsize = addr + length = addr + data.length`). -/
def Firmware.pushRawHexLine (f : Firmware) (hexline : List Nat) :
    GoResult (Firmware × Option String) :=
  if hexline.length < 4 then .ok (f, some "invalid")
  else
    let length := hexline.getD 0 0
    let addr := hexline.getD 1 0 * 256 + hexline.getD 2 0
    let target := hexline.getD 3 0
    if hexline.length < 4 + length then .crash
    else
      let data := (hexline.drop 4).take length
      if target = 0x00 then
        .ok (pushData f addr data, none)
      else if target = 0xfd then
        .ok (pushSignature f addr data)
      else
        .ok (f, some "invalid")

/-- End marker bytes searched for and written by the TI path
(`"\xfe\xc0\xad\xde"`). -/
def tiMagic : List Nat := [0xfe, 0xc0, 0xad, 0xde]

/-- Method `(*Firmware).ParseFirmwareTI` of the source.  Slicing
`f.RawData[:0x0400]` panics when the buffer is shorter than 0x400 bytes.
The vendor-id bytes at 0x3f8/0x3f9 choose `hasBL`/`startOffset`; the end
marker is searched from `startOffset`; on a hit the layout fields are
written and the stored CRC (little-endian at `tailPos`) is compared with
the CRC-16/CCITT-FALSE of `[startOffset, startOffset+size-6)`. -/
def Firmware.parseFirmwareTI (f : Firmware) : GoResult (Firmware × Option String) :=
  if f.rawData.length < 0x400 then .crash
  else
    let f := if f.rawData.getD 0x3f8 0 = 0x6d ∧ f.rawData.getD 0x3f9 0 = 0x04 then
        { f with hasBL := true, startOffset := 0x400 }
      else
        { f with hasBL := false, startOffset := 0x0000 }
    match findSeq tiMagic (f.rawData.drop f.startOffset) with
    | none => .ok (f, some "seems to be no valid Logitech firmware for TI, magic bytes missing")
    | some pos =>
      let f := { f with size := add16 (pos % 0x10000) 4 }
      let f := { f with lastOffset := sub16 (add16 f.size f.startOffset) 1 }
      let f := { f with tailPos := sub16 (add16 f.startOffset f.size) 6 }
      if add16 f.tailPos 1 < f.rawData.length ∧ f.tailPos < f.rawData.length then
        let f := { f with
          crc := f.rawData.getD (add16 f.tailPos 1) 0 * 256 + f.rawData.getD f.tailPos 0 }
        let hi := sub16 (add16 f.startOffset f.size) 6
        if f.startOffset ≤ hi ∧ hi ≤ f.rawData.length then
          let calculated := crc16 ((f.rawData.take hi).drop f.startOffset)
          if calculated ≠ f.crc then
            .ok (f, some "Firmware has wrong CRC")
          else
            .ok (f, none)
        else .crash
      else .crash

/-- Bootloader-presence check at the head of
`(*Firmware).ParseFirmwareNordic`:
`len(f.RawData) > 0x7400 && f.RawData[0x7400+0xbb0] == 0x04 && f.RawData[0x7400+0xbb1] == 0x6d`
with Go short-circuit evaluation; each index panics when out of range. -/
def nordicHasBL (raw : List Nat) : GoResult Bool :=
  if raw.length ≤ 0x7400 then .ok false
  else if raw.length ≤ 0x7400 + 0xbb0 then .crash
  else if raw.getD (0x7400 + 0xbb0) 0 ≠ 0x04 then .ok false
  else if raw.length ≤ 0x7400 + 0xbb1 then .crash
  else .ok (raw.getD (0x7400 + 0xbb1) 0 == 0x6d)

/-- Method `(*Firmware).ParseFirmwareNordic` of the source: set the
bootloader flag, then try candidate image size 0x6400 and, when its CRC
check fails, candidate size 0x6800; each attempt writes the layout fields
before checking the trailing big-endian-stored CRC against the
CRC-16/CCITT-FALSE of the bytes before it. -/
def Firmware.parseFirmwareNordic (f : Firmware) : GoResult (Firmware × Option String) :=
  match nordicHasBL f.rawData with
  | .crash => .crash
  | .ok hb =>
    let f := { f with hasBL := hb }
    if f.rawData.length < 0x6400 then .ok (f, some "No valid firmware image")
    else
      let f := { f with startOffset := 0x0000, lastOffset := 0x63ff, size := 0x6400 }
      let f := { f with
        crc := f.rawData.getD (0x6400 - 2) 0 * 256 + f.rawData.getD (0x6400 - 1) 0 }
      if crc16 (f.rawData.take (0x6400 - 2)) = f.crc then .ok (f, none)
      else if f.rawData.length < 0x6800 then .ok (f, some "No valid firmware image")
      else
        let f := { f with startOffset := 0x0000, lastOffset := 0x67ff, size := 0x6800 }
        let f := { f with
          crc := f.rawData.getD (0x6800 - 2) 0 * 256 + f.rawData.getD (0x6800 - 1) 0 }
        if crc16 (f.rawData.take (0x6800 - 2)) = f.crc then .ok (f, none)
        else .ok (f, some "No valid firmware image")

/-- Classification block shared verbatim by `ParseFirmwareBin` and
`ParseFirmwareHex`: set `TargetType` to UNKNOWN, try the TI detector, on
failure fall back to the Nordic detector, on success of either stamp the
terminal target type, on failure of both return the unsupported-format
error (the caller then returns `nil` for the entity). -/
def classifyFirmware (f : Firmware) : GoResult (Except String Firmware) :=
  let f := { f with targetType := .unknown }
  match f.parseFirmwareTI with
  | .crash => .crash
  | .ok (f1, none) => .ok (.ok { f1 with targetType := .ti })
  | .ok (f1, some _) =>
    match f1.parseFirmwareNordic with
    | .crash => .crash
    | .ok (f2, none) => .ok (.ok { f2 with targetType := .nordic })
    | .ok (_, some _) => .ok (.error "unsupported firmware format - neither nordic, nor TI")

/-- Function `ParseFirmwareBin` of the source: wrap a raw binary blob in a
fresh entity and classify it. -/
def parseFirmwareBin (binblob : List Nat) : GoResult (Except String Firmware) :=
  classifyFirmware { Firmware.init with rawData := binblob, rawNil := false }

/-- Per-line body of the scanner loop of `ParseFirmwareHex`:
`scanner.Text()[1:]` panics on an empty line; a line that fails to
hex-decode, decodes to fewer than 4 bytes, or has a record type other
than 0x00/0xfd is skipped; otherwise the record is pushed and the error
returned by `pushRawHexLine` is discarded (the loop continues). -/
def processLine (f : Firmware) (line : List Char) : GoResult Firmware :=
  match line with
  | [] => .crash
  | _ :: rest =>
    match hexDecode rest with
    | none => .ok f
    | some hbytes =>
      if hbytes.length < 4 ∨ (hbytes.getD 3 0 ≠ 0x00 ∧ hbytes.getD 3 0 ≠ 0xfd) then .ok f
      else
        match f.pushRawHexLine hbytes with
        | .crash => .crash
        | .ok (f1, _) => .ok f1

/-- The whole scanner loop of `ParseFirmwareHex` over the lines of the
input file. -/
def processLines (f : Firmware) : List (List Char) → GoResult Firmware
  | [] => .ok f
  | l :: ls =>
    match processLine f l with
    | .crash => .crash
    | .ok f1 => processLines f1 ls

/-- Function `ParseFirmwareHex` of the source, given the list of text
lines of the input file: run the scanner loop from a fresh entity, trim
`RawData` to `[startOffset, startOffset+size)` (a Go slice expression
with `uint16` bounds that panics when out of range), then classify. -/
def parseFirmwareHexLines (lines : List (List Char)) : GoResult (Except String Firmware) :=
  match processLines Firmware.init lines with
  | .crash => .crash
  | .ok f =>
    let hi := add16 f.startOffset f.size
    if f.startOffset ≤ hi ∧ hi ≤ f.rawData.length then
      classifyFirmware { f with rawData := (f.rawData.take hi).drop f.startOffset }
    else .crash

/-- The 14 ordered byte-sequence substitutions of the downgrade patcher
(old pattern, replacement), exactly as listed in
`BaseImageDowngradeFromBL0302ToBL0301`. -/
def downgradeSubs : List (List Nat × List Nat) :=
  [([0x90, 0xe4, 0x00], [0x90, 0xec, 0x00]),
   ([0x7a, 0x04, 0x7b, 0xe4], [0x7a, 0x04, 0x7b, 0xec]),
   ([0x90, 0xe8, 0x00], [0x90, 0xf0, 0x00]),
   ([0x7a, 0x04, 0x7b, 0xe8], [0x7a, 0x04, 0x7b, 0xf0]),
   ([0x08, 0x74, 0xe4], [0x08, 0x74, 0xec]),
   ([0x75, 0x0f, 0xe8], [0x75, 0x0f, 0xf0]),
   ([0x79, 0x1a], [0x79, 0x1c]),
   ([0x7f, 0x1a, 0x79, 0x7f], [0x7f, 0x1c, 0x79, 0x7f]),
   ([0x7f, 0x19], [0x7f, 0x1b]),
   ([0x79, 0x19], [0x79, 0x1b]),
   ([0xf2, 0x08, 0x74, 0xe8], [0xf2, 0x08, 0x74, 0xf0]),
   ([0x0f, 0xe4, 0x22], [0x0f, 0xec, 0x22]),
   ([0x00, 0x7b, 0x64], [0x00, 0x7b, 0x6c]),
   ([0x05, 0x79, 0x19], [0x05, 0x79, 0x1b])]

/-- Buffer pipeline of `(*Firmware).BaseImageDowngradeFromBL0302ToBL0301`
after its guards: copy the base image window into a fresh buffer of
`size + 0x800` zero bytes, blank the old CRC/marker bytes and all
appended bytes to 0xFF (the two fill loops of the source write the
contiguous range `[0x5ffa, len)`; the size guard makes both loops in
bounds), apply the 14 substitutions in the listed order, write the new
end marker into the final 4 bytes, and store the CRC recomputed over
`[0, len-6)` little-endian immediately before the marker. -/
def downgradeTransform (base : List Nat) (newLen : Nat) : List Nat :=
  let p0 := copyInto (List.replicate newLen 0) 0 base
  let p1 := p0.take 0x5ffa ++ List.replicate (p0.length - 0x5ffa) 0xFF
  let p2 := downgradeSubs.foldl (fun s sub => replaceAll sub.1 sub.2 s) p1
  let p3 := copyInto p2 (p2.length - 4) tiMagic
  let c := crc16 (p3.take (p3.length - 6))
  (p3.set (p3.length - 6) (c % 256)).set (p3.length - 5) ((c / 256) % 256)

/-- Method `(*Firmware).BaseImageDowngradeFromBL0302ToBL0301` of the
source: reject non-TI targets and sizes other than 0x6000 with an error
and no buffer; otherwise slice the base image window
`RawData[startOffset : startOffset+size]` (a `uint16` slice expression
that panics when out of range) and run the buffer pipeline
`downgradeTransform` on it.  The method never assigns to the receiver, so
the receiver is returned unchanged alongside the result. -/
def Firmware.baseImageDowngradeFromBL0302ToBL0301 (f : Firmware) :
    GoResult (Firmware × Except String (List Nat)) :=
  if f.targetType ≠ .ti then
    .ok (f, .error "error: downgrade only supported for CC2544 firmware")
  else if f.size ≠ 0x6000 then
    .ok (f, .error "can not downgrade an image which has not a size of 0x6000")
  else
    let hi := add16 f.startOffset f.size
    if f.startOffset ≤ hi ∧ hi ≤ f.rawData.length then
      .ok (f, .ok (downgradeTransform ((f.rawData.take hi).drop f.startOffset)
                     (add16 f.size 0x800)))
    else .crash

/-- Encoding of a decoded data record with address `a` and payload `d` as
the byte list `pushRawHexLine` consumes:
`[length, addrHi, addrLo, 0x00] ++ data`. -/
def mkDataLine (a : Nat) (d : List Nat) : List Nat :=
  [d.length, a / 256, a % 256, 0x00] ++ d

/-- Driver feeding a sequence of decoded data records to
`pushRawHexLine`, stopping at the first rejected record; the claims about
record sequences quantify over successfully accepted records. -/
def pushRecords (f : Firmware) : List (Nat × List Nat) → GoResult (Firmware × Option String)
  | [] => .ok (f, none)
  | (a, d) :: rs =>
    match f.pushRawHexLine (mkDataLine a d) with
    | .crash => .crash
    | .ok (f1, some e) => .ok (f1, some e)
    | .ok (f1, none) => pushRecords f1 rs

/-! Helper facts about the embedded operations. -/

/-- Concrete firmware entity used to state claim C2 at the re-application
size 0x6800 (an already patched image, reclassified). -/
def reappliedTIEntity : Firmware :=
  { Firmware.init with targetType := .ti, size := 0x6800 }

/-- C2: the downgrade patcher rejects every entity whose target type is
not TI or whose size is not exactly 0x6000: it returns an error value and
no buffer, and the receiver entity is returned with every field
unchanged. -/
theorem downgrade_patcher_rejects_invalid (f : Firmware)
    (h : f.targetType ≠ .ti ∨ f.size ≠ 0x6000) :
    ∃ e, f.baseImageDowngradeFromBL0302ToBL0301 = .ok (f, .error e) := by
  unfold Firmware.baseImageDowngradeFromBL0302ToBL0301
  by_cases ht : f.targetType = FirmwareTargetType.ti
  · have hs : f.size ≠ 0x6000 := by tauto
    refine ⟨"can not downgrade an image which has not a size of 0x6000", ?_⟩
    simp [ht, hs]
  · refine ⟨"error: downgrade only supported for CC2544 firmware", ?_⟩
    simp [ht]

/-- Witness for C2: a TI entity of size 0x6800 (the size produced by a
previous downgrade) is rejected with an error and returned unchanged. -/
theorem downgrade_patcher_rejects_invalid_witness :
    (reappliedTIEntity.targetType ≠ FirmwareTargetType.ti ∨ reappliedTIEntity.size ≠ 0x6000)
    ∧ ∃ e, reappliedTIEntity.baseImageDowngradeFromBL0302ToBL0301 =
        .ok (reappliedTIEntity, .error e) :=
  ⟨Or.inr (by decide),
   downgrade_patcher_rejects_invalid reappliedTIEntity (Or.inr (by decide))⟩

/-- C3 (code bug): the engine does crash on several inputs.  A data record
whose declared length field (5) exceeds the bytes present after the
4-byte header panics in `data := hexline[4 : 4+length]`; TI
classification of a buffer shorter than 0x400 bytes panics in
`f.RawData[:0x0400]`; an empty input line panics in
`scanner.Text()[1:]`.  The claim (and the spec) say every such input
returns a descriptive error value instead. -/
theorem engine_crashes_on_malformed_inputs :
    Firmware.init.pushRawHexLine [0x05, 0x00, 0x00, 0x00] = .crash
    ∧ Firmware.parseFirmwareTI
        { Firmware.init with rawData := List.replicate 0x10 0, rawNil := false } = .crash
    ∧ processLine Firmware.init [] = .crash := by
  exact ⟨by decide, by decide, rfl⟩

/-- Counterexample to C4: two successfully accepted data records pushed
out of order (first at address 0x10 with one byte, then at address 0x00
with one byte).  The minimum address seen is 0, the maximum
address+length is 0x11, so the claim demands `size = 0x11` and
`lastOffset = startOffset + size - 1 = 0`.  The code leaves `size = 1`
(the size update keys on `size + startOffset` with the already-lowered
`startOffset`, so it never re-extends) and `lastOffset = 0x10`. -/
theorem out_of_order_records_break_layout :
    pushRecords Firmware.init [(0x10, [0xAA]), (0x00, [0xBB])] =
      .ok ({ Firmware.init with
              rawData := [0xBB] ++ List.replicate 0xF 0xFF ++ [0xAA],
              rawNil := false, size := 1, startOffset := 0, lastOffset := 0x10 }, none)
    ∧ (1 : Nat) ≠ 0x11 - 0 ∧ (0x10 : Nat) ≠ 0 + 1 - 1 := by
  decide

/-- Raw blob for the C5 counterexample: 0x400 bytes, vendor id `6d 04` at
offset 0x3f8, no end marker anywhere. -/
def c5blob : List Nat := List.replicate 0x3f8 0 ++ [0x6d, 0x04] ++ List.replicate 6 0

/-- Entity holding the C5 blob before any classification attempt
(startOffset is 0, the zero value). -/
def c5entity0 : Firmware := { Firmware.init with rawData := c5blob, rawNil := false }

/-- State of the C5 entity after the failed TI attempt: the vendor-id
check already wrote hasBL and startOffset. -/
def c5entity1 : Firmware := { c5entity0 with hasBL := true, startOffset := 0x400 }

/-- State of the C5 entity after the failed Nordic attempt: hasBL was
overwritten by the Nordic bootloader check while the TI startOffset
remains. -/
def c5entity2 : Firmware := { c5entity1 with hasBL := false }

/-- Counterexample to C5: on this 0x400-byte blob the TI attempt matches
the vendor id (writing `hasBL := true`, `startOffset := 0x400`) and then
fails on the missing end marker; the Nordic attempt fails on the length
check after writing `hasBL := false`.  The failed entity ends with
`startOffset = 0x400` from the TI attempt and `hasBL` from the Nordic
attempt — a mix of values from the two failed attempts, not the
pre-attempt values (`startOffset` was 0) and not an unclassified
sentinel. -/
theorem failed_classification_mixes_fields :
    c5entity0.parseFirmwareTI =
      .ok (c5entity1, some "seems to be no valid Logitech firmware for TI, magic bytes missing")
    ∧ c5entity1.parseFirmwareNordic = .ok (c5entity2, some "No valid firmware image")
    ∧ c5entity2.startOffset = 0x400 ∧ (0x400 : Nat) ≠ Firmware.init.startOffset := by
  decide

/-- Counterexample to C9: the 14 substitution patterns are not pairwise
disjoint.  Pattern #10 (`79 19`) is a proper infix of pattern #14
(`05 79 19`); both are in the substitution list. -/
theorem downgradeSubs_not_disjoint :
    ([0x79, 0x19], [0x79, 0x1b]) ∈ downgradeSubs
    ∧ ([0x05, 0x79, 0x19], [0x05, 0x79, 0x1b]) ∈ downgradeSubs
    ∧ [0x79, 0x19] <:+: [0x05, 0x79, 0x19] := by
  refine ⟨by decide, by decide, ⟨[0x05], [], by decide⟩⟩

/-- Raw blob for the C6 counterexample: exactly 0x7400 + 0xbb2 bytes with
`04 6d` at offset 0x7400 + 0xbb0. -/
def c6blob : List Nat := List.replicate 0x7fb0 0 ++ [0x04, 0x6d]

/-- Counterexample to C6: the claim requires `hasBootloader = true` only
when the buffer length strictly exceeds `0x7400 + 0xbb2`.  This buffer
has length exactly `0x7400 + 0xbb2`, yet the code (which only tests
`len > 0x7400` before indexing) sets the flag to true. -/
theorem nordic_bl_flag_boundary_mismatch :
    c6blob.length = 0x7400 + 0xbb2 ∧ nordicHasBL c6blob = .ok true := by
  have hlen : c6blob.length = 0x7400 + 0xbb2 := by
    unfold c6blob
    rw [List.length_append, List.length_replicate]
    decide
  have h1 : c6blob.getD (0x7400 + 0xbb0) 0 = 0x04 := by
    unfold c6blob
    rw [List.getD_append_right]
    · simp only [List.length_replicate]
      decide
    · simp only [List.length_replicate]
      decide
  have h2 : c6blob.getD (0x7400 + 0xbb1) 0 = 0x6d := by
    unfold c6blob
    rw [List.getD_append_right]
    · simp only [List.length_replicate]
      decide
    · simp only [List.length_replicate]
      decide
  refine ⟨hlen, ?_⟩
  unfold nordicHasBL
  rw [hlen, h1, h2]
  decide

/-! Structural lemmas about the embedded buffer operations. -/

/-- The Go `copy` never changes the length of the destination. -/
theorem copyInto_length (l : List Nat) (p : Nat) (s : List Nat) :
    (copyInto l p s).length = l.length := by
  induction l generalizing p s with
  | nil => simp [copyInto]
  | cons d0 ds ih =>
    cases p with
    | zero =>
      cases s with
      | nil => simp [copyInto]
      | cons a ss => simp [copyInto, ih]
    | succ q => simp [copyInto, ih]

/-- Pointwise description of the Go `copy`: inside the written window the
byte comes from the source, outside it the destination is unchanged. -/
theorem copyInto_getD (l : List Nat) (p : Nat) (s : List Nat) (i d : Nat) :
    (copyInto l p s).getD i d =
      if p ≤ i ∧ i < p + s.length ∧ i < l.length then s.getD (i - p) d
      else l.getD i d := by
  induction l generalizing p s i with
  | nil =>
    simp [copyInto]
  | cons d0 ds ih =>
    cases p with
    | zero =>
      cases s with
      | nil => simp [copyInto]
      | cons a ss =>
        cases i with
        | zero => simp [copyInto]
        | succ j =>
          simp only [copyInto, List.getD_cons_succ, ih, List.length_cons]
          by_cases hc : j < ss.length ∧ j < ds.length
          · rw [if_pos (by omega), if_pos (by omega)]
            simp
          · rw [if_neg (by omega), if_neg (by omega)]
    | succ q =>
      cases i with
      | zero =>
        simp only [copyInto, List.getD_cons_zero]
        rw [if_neg (by omega)]
      | succ j =>
        simp only [copyInto, List.getD_cons_succ, ih, List.length_cons]
        by_cases hc : q ≤ j ∧ j < q + s.length ∧ j < ds.length
        · rw [if_pos hc, if_pos (by omega)]
          have : j + 1 - (q + 1) = j - q := by omega
          rw [this]
        · rw [if_neg hc, if_neg (by omega)]

/-- Dropping the prefix before the written window of a fully-in-bounds Go
`copy` yields the source followed by the tail of the destination. -/
theorem copyInto_drop (l : List Nat) (p : Nat) (s : List Nat)
    (h : p + s.length ≤ l.length) :
    (copyInto l p s).drop p = s ++ l.drop (p + s.length) := by
  induction l generalizing p s with
  | nil =>
    simp only [List.length_nil, Nat.le_zero] at h
    have hp : p = 0 := by omega
    have hs : s = [] := List.length_eq_zero.mp (by omega)
    subst hp; subst hs
    simp [copyInto]
  | cons d0 ds ih =>
    cases p with
    | zero =>
      cases s with
      | nil => simp [copyInto]
      | cons a ss =>
        simp only [copyInto, List.drop_zero, List.cons_append]
        have := ih 0 ss (by simp at h ⊢; omega)
        simp only [List.drop_zero, Nat.zero_add] at this
        rw [this]
        simp
    | succ q =>
      simp only [copyInto, List.drop_succ_cons]
      have := ih q s (by simp at h; omega)
      rw [this]
      have : q + 1 + s.length = (q + s.length) + 1 := by omega
      rw [this]
      simp [List.drop_succ_cons]

/-- Reading inside a replicated list yields the replicated value. -/
theorem replicate_getD (n x i d : Nat) :
    (List.replicate n x).getD i d = if i < n then x else d := by
  induction n generalizing i with
  | zero => simp
  | succ m ih =>
    cases i with
    | zero => simp [List.replicate]
    | succ j =>
      simp only [List.replicate, List.getD_cons_succ, ih]
      by_cases hj : j < m
      · rw [if_pos hj, if_pos (by omega)]
      · rw [if_neg hj, if_neg (by omega)]

/-- Writing a list element at or beyond `n` does not change the first `n`
elements. -/
theorem take_set_of_le (l : List Nat) (i v n : Nat) (h : n ≤ i) :
    (l.set i v).take n = l.take n := by
  induction l generalizing i n with
  | nil => simp
  | cons d0 ds ih =>
    cases i with
    | zero =>
      have hn : n = 0 := by omega
      subst hn; simp
    | succ j =>
      cases n with
      | zero => simp
      | succ m =>
        simp only [List.set_cons_succ, List.take_succ_cons]
        rw [ih j m (by omega)]

/-- The `bytes.Replace` of the patcher preserves the buffer length when
the replacement has the same length as the pattern. -/
theorem replaceAll_length_eq (old new : List Nat) (hne : old ≠ [])
    (hlen : new.length = old.length) :
    ∀ s, (replaceAll old new s).length = s.length := by
  have main : ∀ n s, s.length = n → (replaceAll old new s).length = s.length := by
    intro n
    induction n using Nat.strong_induction_on with
    | _ n ih =>
      intro s hs
      match s with
      | [] => simp [replaceAll]
      | a :: t =>
        rw [replaceAll]
        by_cases hp : old.isPrefixOf (a :: t)
        · rw [dif_pos ⟨hne, hp⟩]
          have hop : 0 < old.length := List.length_pos.mpr hne
          have hle : old.length ≤ (a :: t).length :=
            (List.isPrefixOf_iff_prefix.mp hp).length_le
          have hrec := ih ((a :: t).drop old.length).length
            (by simp only [List.length_drop]; simp at hs ⊢; omega)
            ((a :: t).drop old.length) rfl
          simp only [List.length_append, hrec, List.length_drop, hlen]
          simp at hle ⊢
          omega
        · rw [dif_neg (by tauto)]
          simp only [List.length_cons]
          have hrec := ih t.length (by simp [← hs]) t rfl
          omega
  intro s
  exact main s.length s rfl

/-- Every round of the CRC table generator yields a 16-bit value. -/
theorem crcRound_lt (c : Nat) : crcRound c < 0x10000 := by
  unfold crcRound
  split_ifs <;> exact Nat.mod_lt _ (by norm_num)

/-- Table entries are 16-bit values. -/
theorem crcTableEntry_lt (n : Nat) : crcTableEntry n < 0x10000 := by
  unfold crcTableEntry
  rw [show (8 : Nat) = 7 + 1 from rfl, Function.iterate_succ_apply']
  exact crcRound_lt _

/-- One CRC update step yields a 16-bit value. -/
theorem crc16Update_lt (crc b : Nat) : crc16Update crc b < 0x10000 := by
  unfold crc16Update
  have h1 : (crc * 256) % 0x10000 < 2 ^ 16 := Nat.mod_lt _ (by norm_num)
  have h2 : crcTableEntry (((crc / 256) ^^^ b) % 256) < 2 ^ 16 := crcTableEntry_lt _
  exact Nat.xor_lt_two_pow h1 h2

/-- The CRC-16 of any byte list is a 16-bit value. -/
theorem crc16_lt (data : List Nat) : crc16 data < 0x10000 := by
  unfold crc16
  induction data using List.reverseRecOn with
  | nil => norm_num
  | append_singleton l b _ =>
    rw [List.foldl_append, List.foldl_cons, List.foldl_nil]
    exact crc16Update_lt _ _

/-- Writing an element at index `i` of a list is read back at `i`. -/
theorem getD_set_self (l : List Nat) (i v d : Nat) (h : i < l.length) :
    (l.set i v).getD i d = v := by
  rw [List.getD_eq_getElem (l.set i v) d (by rw [List.length_set]; exact h)]
  exact List.getElem_set_self _

/-- Writing an element at index `i` does not change reads at `j ≠ i`. -/
theorem getD_set_ne (l : List Nat) (i v j d : Nat) (h : i ≠ j) :
    (l.set i v).getD j d = l.getD j d := by
  by_cases hj : j < l.length
  · rw [List.getD_eq_getElem (l.set i v) d (by rw [List.length_set]; exact hj),
      List.getD_eq_getElem l d hj]
    exact List.getElem_set_ne h _
  · rw [List.getD_eq_default _ _ (by rw [List.length_set]; omega),
      List.getD_eq_default _ _ (by omega)]

/-- Writing an element at index `i < n` does not change the list from
index `n` on. -/
theorem drop_set_of_lt (l : List Nat) (i v n : Nat) (h : i < n) :
    (l.set i v).drop n = l.drop n := by
  rw [List.drop_set, if_pos h]

/-- Folding a list of length-preserving substitutions preserves the
buffer length. -/
theorem foldl_replaceAll_length (subs : List (List Nat × List Nat))
    (hs : ∀ p ∈ subs, p.1 ≠ [] ∧ p.2.length = p.1.length) :
    ∀ s : List Nat, (subs.foldl (fun b sub => replaceAll sub.1 sub.2 b) s).length = s.length := by
  induction subs with
  | nil => intro s; simp
  | cons p ps ih =>
    intro s
    rw [List.foldl_cons]
    rw [ih (fun q hq => hs q (List.mem_cons_of_mem p hq))]
    exact replaceAll_length_eq p.1 p.2 (hs p (List.mem_cons_self p ps)).1
      (hs p (List.mem_cons_self p ps)).2 s

/-- Structural facts about the patcher pipeline on a 0x6000-byte base
image: the output has 0x6800 bytes, ends with the end marker, and stores
at `[len-6, len-4)` the little-endian CRC recomputed over `[0, len-6)` of
the final buffer. -/
theorem downgradeTransform_spec (base : List Nat) :
    (downgradeTransform base 0x6800).length = 0x6800
    ∧ (downgradeTransform base 0x6800).drop 0x67fc = tiMagic
    ∧ crc16 ((downgradeTransform base 0x6800).take 0x67fa) =
        (downgradeTransform base 0x6800).getD 0x67fa 0
          + 256 * (downgradeTransform base 0x6800).getD 0x67fb 0 := by
  have hsubs : ∀ p ∈ downgradeSubs, p.1 ≠ [] ∧ p.2.length = p.1.length := by decide
  unfold downgradeTransform
  set p0 := copyInto (List.replicate 0x6800 0) 0 base with hp0
  have h0 : p0.length = 0x6800 := by
    rw [hp0, copyInto_length, List.length_replicate]
  set p1 := p0.take 0x5ffa ++ List.replicate (p0.length - 0x5ffa) 0xFF with hp1
  have h1 : p1.length = 0x6800 := by
    rw [hp1, List.length_append, List.length_take, List.length_replicate, h0]
    omega
  set p2 := downgradeSubs.foldl (fun s sub => replaceAll sub.1 sub.2 s) p1 with hp2
  have h2 : p2.length = 0x6800 := by
    rw [hp2, foldl_replaceAll_length downgradeSubs hsubs p1, h1]
  set p3 := copyInto p2 (p2.length - 4) tiMagic with hp3
  have h3 : p3.length = 0x6800 := by
    rw [hp3, copyInto_length, h2]
  set c := crc16 (p3.take (p3.length - 6)) with hc
  set p4 := (p3.set (p3.length - 6) (c % 256)).set (p3.length - 5) ((c / 256) % 256) with hp4
  have h4 : p4.length = 0x6800 := by
    rw [hp4, List.length_set, List.length_set, h3]
  have e6 : (0x6800 : Nat) - 6 = 0x67fa := rfl
  have e5 : (0x6800 : Nat) - 5 = 0x67fb := rfl
  have e4 : (0x6800 : Nat) - 4 = 0x67fc := rfl
  refine ⟨h4, ?_, ?_⟩
  · rw [hp4, h3, e6, e5]
    rw [drop_set_of_lt _ _ _ _ (by norm_num), drop_set_of_lt _ _ _ _ (by norm_num),
      hp3, h2, e4]
    rw [copyInto_drop p2 0x67fc tiMagic (by rw [h2]; decide)]
    rw [List.drop_eq_nil_of_le (by rw [h2]; decide), List.append_nil]
  · have htake : p4.take 0x67fa = p3.take 0x67fa := by
      rw [hp4, h3, e6, e5]
      rw [take_set_of_le _ _ _ _ (by norm_num), take_set_of_le _ _ _ _ (by norm_num)]
    have hlo : p4.getD 0x67fa 0 = c % 256 := by
      rw [hp4, h3, e6, e5]
      rw [getD_set_ne _ _ _ _ _ (by norm_num), getD_set_self _ _ _ _ (by rw [h3]; decide)]
    have hhi : p4.getD 0x67fb 0 = (c / 256) % 256 := by
      rw [hp4, h3, e6, e5]
      rw [getD_set_self _ _ _ _ (by rw [List.length_set, h3]; decide)]
    rw [htake, hlo, hhi]
    have hcv : crc16 (p3.take 0x67fa) = c := by
      rw [hc, h3]
    rw [hcv]
    have hlt : c < 0x10000 := crc16_lt _
    have hdiv : (c / 256) % 256 = c / 256 := by
      have : c / 256 < 256 := by omega
      exact Nat.mod_eq_of_lt this
    rw [hdiv]
    exact (Nat.mod_add_div c 256).symm

/-- C1: for every firmware entity with target type TI and size exactly
0x6000 whose base image window is in range (a valid classified TI entity
always is), the downgrade patcher succeeds and returns a buffer of length
exactly 0x6000 + 0x800 = 0x6800 whose final 4 bytes are the end marker
`FE C0 AD DE`, and the CRC-16/CCITT-FALSE recomputed over bytes
`[0, len-6)` of the output equals the little-endian 16-bit value stored
at `[len-6, len-4)`. -/
theorem downgrade_patcher_output_spec (f : Firmware)
    (hT : f.targetType = .ti) (hS : f.size = 0x6000)
    (hW : f.startOffset + 0x6000 < 0x10000)
    (hB : f.startOffset + 0x6000 ≤ f.rawData.length) :
    ∃ out, f.baseImageDowngradeFromBL0302ToBL0301 = .ok (f, .ok out)
      ∧ out.length = 0x6000 + 0x800
      ∧ out.drop (out.length - 4) = tiMagic
      ∧ crc16 (out.take (out.length - 6)) =
          out.getD (out.length - 6) 0 + 256 * out.getD (out.length - 5) 0 := by
  unfold Firmware.baseImageDowngradeFromBL0302ToBL0301
  rw [if_neg (by simp [hT])]
  rw [if_neg (by simp [hS])]
  have hadd : add16 f.startOffset f.size = f.startOffset + 0x6000 := by
    rw [hS]
    unfold add16
    exact Nat.mod_eq_of_lt hW
  have hadd2 : add16 f.size 0x800 = 0x6800 := by
    rw [hS]
    decide
  rw [hadd, hadd2]
  rw [if_pos ⟨by omega, hB⟩]
  obtain ⟨hl, hd, hc⟩ :=
    downgradeTransform_spec ((f.rawData.take (f.startOffset + 0x6000)).drop f.startOffset)
  refine ⟨_, rfl, ?_, ?_, ?_⟩
  · rw [hl]
  · rw [hl, show (0x6800 : Nat) - 4 = 0x67fc from rfl]
    exact hd
  · rw [hl, show (0x6800 : Nat) - 6 = 0x67fa from rfl,
      show (0x6800 : Nat) - 5 = 0x67fb from rfl]
    exact hc

/-- Witness entity for C1: a TI entity with a 0x6000-byte all-zero base
image at offset 0. -/
def c1entity : Firmware :=
  { Firmware.init with
      rawData := List.replicate 0x6000 0
      rawNil := false
      size := 0x6000
      targetType := .ti }

/-- Witness for C1: the patcher hypotheses hold for `c1entity` and the
conclusion follows by applying the theorem there. -/
theorem downgrade_patcher_output_spec_witness :
    (c1entity.targetType = FirmwareTargetType.ti ∧ c1entity.size = 0x6000
      ∧ c1entity.startOffset + 0x6000 < 0x10000
      ∧ c1entity.startOffset + 0x6000 ≤ c1entity.rawData.length)
    ∧ ∃ out, c1entity.baseImageDowngradeFromBL0302ToBL0301 = .ok (c1entity, .ok out)
      ∧ out.length = 0x6000 + 0x800
      ∧ out.drop (out.length - 4) = tiMagic
      ∧ crc16 (out.take (out.length - 6)) =
          out.getD (out.length - 6) 0 + 256 * out.getD (out.length - 5) 0 := by
  have hT : c1entity.targetType = FirmwareTargetType.ti := by decide
  have hS : c1entity.size = 0x6000 := by decide
  have hW : c1entity.startOffset + 0x6000 < 0x10000 := by
    show (0 : Nat) + 0x6000 < 0x10000
    norm_num
  have hB : c1entity.startOffset + 0x6000 ≤ c1entity.rawData.length := by
    show (0 : Nat) + 0x6000 ≤ (List.replicate 0x6000 0).length
    rw [List.length_replicate]
  exact ⟨⟨hT, hS, hW, hB⟩, downgrade_patcher_output_spec c1entity hT hS hW hB⟩

/-- Shape of the TI detector result: it either panics or returns an
entity whose target type equals the caller's (the detector never writes
`TargetType`). -/
theorem tiParse_shape (f : Firmware) :
    f.parseFirmwareTI = .crash
    ∨ ∃ f1 e, f.parseFirmwareTI = .ok (f1, e) ∧ f1.targetType = f.targetType := by
  unfold Firmware.parseFirmwareTI
  by_cases h1 : f.rawData.length < 0x400
  · rw [if_pos h1]
    left
    rfl
  · rw [if_neg h1]
    by_cases hvid : f.rawData.getD 0x3f8 0 = 0x6d ∧ f.rawData.getD 0x3f9 0 = 0x04
    · rw [if_pos hvid]
      simp only []
      cases hfind : findSeq tiMagic (f.rawData.drop 0x400) with
      | none => right; exact ⟨_, _, rfl, rfl⟩
      | some pos =>
        simp only []
        split_ifs
        · right; exact ⟨_, _, rfl, rfl⟩
        · right; exact ⟨_, _, rfl, rfl⟩
        · left; rfl
        · left; rfl
    · rw [if_neg hvid]
      simp only []
      cases hfind : findSeq tiMagic (f.rawData.drop 0) with
      | none => right; exact ⟨_, _, rfl, rfl⟩
      | some pos =>
        simp only []
        split_ifs
        · right; exact ⟨_, _, rfl, rfl⟩
        · right; exact ⟨_, _, rfl, rfl⟩
        · left; rfl
        · left; rfl

/-- Shape of the Nordic detector result: it either panics or returns an
entity whose target type equals the caller's (the detector never writes
`TargetType`). -/
theorem nordicParse_shape (f : Firmware) :
    f.parseFirmwareNordic = .crash
    ∨ ∃ f1 e, f.parseFirmwareNordic = .ok (f1, e) ∧ f1.targetType = f.targetType := by
  unfold Firmware.parseFirmwareNordic
  cases hbl : nordicHasBL f.rawData with
  | crash => left; rfl
  | ok b =>
    simp only []
    split_ifs
    · right; exact ⟨_, _, rfl, rfl⟩
    · right; exact ⟨_, _, rfl, rfl⟩
    · right; exact ⟨_, _, rfl, rfl⟩
    · right; exact ⟨_, _, rfl, rfl⟩
    · right; exact ⟨_, _, rfl, rfl⟩

/-- C5 (amended): after a failed TI attempt followed by a Nordic attempt
(the classification sequence of `ParseFirmwareBin`/`ParseFirmwareHex`),
the entity keeps its pre-classification target type; with the sentinel
Unknown set before the attempts, a failed classification leaves
`targetType = Unknown`, even though other layout fields may hold a mix of
values written by the failed attempts
(see `failed_classification_mixes_fields`). -/
theorem failed_classification_preserves_targetType (f f1 f2 : Firmware)
    (e1 e2 : Option String)
    (h1 : f.parseFirmwareTI = .ok (f1, e1))
    (h2 : f1.parseFirmwareNordic = .ok (f2, e2)) :
    f2.targetType = f.targetType := by
  rcases tiParse_shape f with hc | ⟨f1x, e1x, heq, hp⟩
  · rw [hc] at h1; cases h1
  · rw [heq] at h1
    injection h1 with hpair
    injection hpair with hf1 he1
    subst hf1
    rcases nordicParse_shape f1x with hc2 | ⟨f2x, e2x, heq2, hp2⟩
    · rw [hc2] at h2; cases h2
    · rw [heq2] at h2
      injection h2 with hpair2
      injection hpair2 with hf2 he2
      subst hf2
      rw [hp2, hp]

/-- Witness for C5 (amended): on the concrete C5 blob, the TI attempt and
then the Nordic attempt both return, and the resulting entity keeps the
Unknown target type of the fresh entity. -/
theorem failed_classification_preserves_targetType_witness :
    c5entity2.targetType = c5entity0.targetType :=
  failed_classification_preserves_targetType c5entity0 c5entity1 c5entity2
    (some "seems to be no valid Logitech firmware for TI, magic bytes missing")
    (some "No valid firmware image")
    (by decide) (by decide)
/-- The bootloader check of the Nordic detector, on every buffer length
for which it returns (at most 0x7400, or at least 0x7400 + 0xbb2): the
flag is the conjunction of the corrected length bound (at least, not
strictly greater than, 0x7400 + 0xbb2) and the two byte comparisons. -/
theorem nordicHasBL_spec (f : Firmware)
    (h : f.rawData.length ≤ 0x7400 ∨ 0x7400 + 0xbb2 ≤ f.rawData.length) :
    nordicHasBL f.rawData =
      .ok (decide (0x7400 + 0xbb2 ≤ f.rawData.length)
        && (f.rawData.getD (0x7400 + 0xbb0) 0 == 0x04)
        && (f.rawData.getD (0x7400 + 0xbb1) 0 == 0x6d)) := by
  unfold nordicHasBL
  rcases h with h | h
  · rw [if_pos h]
    rw [decide_eq_false (by omega : ¬ 0x7400 + 0xbb2 ≤ f.rawData.length)]
    rfl
  · rw [if_neg (by omega), if_neg (by omega)]
    rw [decide_eq_true (by omega : 0x7400 + 0xbb2 ≤ f.rawData.length)]
    by_cases h4 : f.rawData.getD (0x7400 + 0xbb0) 0 = 0x04
    · rw [if_neg (not_not_intro h4)]
      rw [if_neg (by omega)]
      rw [beq_iff_eq.mpr h4]
      rfl
    · rw [if_pos h4]
      rw [beq_eq_false_iff_ne.mpr h4]
      rfl

/-- C6 (amended): for every buffer of length at most 0x7400 or at least
0x7400 + 0xbb2, the Nordic detector returns with `hasBL` set to true
exactly when the length is at least 0x7400 + 0xbb2 and the bytes at
0x7400+0xbb0 equal 04 6d (false otherwise), and its success is exactly
the success of one of the two CRC candidate checks — the flag never
influences it.  (For intermediate lengths the check panics, see
`nordic_bl_flag_boundary_mismatch` for the boundary divergence.) -/
theorem nordic_bl_flag_spec (f : Firmware)
    (h : f.rawData.length ≤ 0x7400 ∨ 0x7400 + 0xbb2 ≤ f.rawData.length) :
    ∃ f1 e, f.parseFirmwareNordic = .ok (f1, e)
      ∧ f1.hasBL = (decide (0x7400 + 0xbb2 ≤ f.rawData.length)
            && (f.rawData.getD (0x7400 + 0xbb0) 0 == 0x04)
            && (f.rawData.getD (0x7400 + 0xbb1) 0 == 0x6d))
      ∧ (e = none ↔
          (0x6400 ≤ f.rawData.length
            ∧ crc16 (f.rawData.take (0x6400 - 2)) =
                f.rawData.getD (0x6400 - 2) 0 * 256 + f.rawData.getD (0x6400 - 1) 0)
          ∨ (0x6800 ≤ f.rawData.length
            ∧ crc16 (f.rawData.take (0x6800 - 2)) =
                f.rawData.getD (0x6800 - 2) 0 * 256 + f.rawData.getD (0x6800 - 1) 0)) := by
  unfold Firmware.parseFirmwareNordic
  rw [nordicHasBL_spec f h]
  simp only []
  split_ifs with h1 h2 h3 h4
  · refine ⟨_, _, rfl, rfl, ?_⟩
    constructor
    · intro hc; cases hc
    · rintro (⟨hl, _⟩ | ⟨hl, _⟩) <;> omega
  · refine ⟨_, _, rfl, rfl, ?_⟩
    constructor
    · intro _; exact Or.inl ⟨by omega, h2⟩
    · intro _; rfl
  · refine ⟨_, _, rfl, rfl, ?_⟩
    constructor
    · intro hc; cases hc
    · rintro (⟨hl, hcrc⟩ | ⟨hl, _⟩)
      · exact absurd hcrc h2
      · omega
  · refine ⟨_, _, rfl, rfl, ?_⟩
    constructor
    · intro _; exact Or.inr ⟨by omega, h4⟩
    · intro _; rfl
  · refine ⟨_, _, rfl, rfl, ?_⟩
    constructor
    · intro hc; cases hc
    · rintro (⟨hl, hcrc⟩ | ⟨hl, hcrc⟩)
      · exact absurd hcrc h2
      · exact absurd hcrc h4

/-- Witness for C6 (amended): the empty raw buffer satisfies the length
hypothesis and the theorem applies. -/
theorem nordic_bl_flag_spec_witness :
    (Firmware.init.rawData.length ≤ 0x7400
      ∨ 0x7400 + 0xbb2 ≤ Firmware.init.rawData.length)
    ∧ ∃ f1 e, Firmware.init.parseFirmwareNordic = .ok (f1, e)
      ∧ f1.hasBL = (decide (0x7400 + 0xbb2 ≤ Firmware.init.rawData.length)
            && (Firmware.init.rawData.getD (0x7400 + 0xbb0) 0 == 0x04)
            && (Firmware.init.rawData.getD (0x7400 + 0xbb1) 0 == 0x6d))
      ∧ (e = none ↔
          (0x6400 ≤ Firmware.init.rawData.length
            ∧ crc16 (Firmware.init.rawData.take (0x6400 - 2)) =
                Firmware.init.rawData.getD (0x6400 - 2) 0 * 256
                  + Firmware.init.rawData.getD (0x6400 - 1) 0)
          ∨ (0x6800 ≤ Firmware.init.rawData.length
            ∧ crc16 (Firmware.init.rawData.take (0x6800 - 2)) =
                Firmware.init.rawData.getD (0x6800 - 2) 0 * 256
                  + Firmware.init.rawData.getD (0x6800 - 1) 0)) :=
  ⟨Or.inl (by decide), nordic_bl_flag_spec Firmware.init (Or.inl (by decide))⟩
/-- Head of the buffer after globally replacing `79 19` by `79 1b`:
either the original head or the byte 0x79. -/
theorem replaceTen_head (s : List Nat) :
    (replaceAll [0x79, 0x19] [0x79, 0x1b] s).head? = s.head?
    ∨ (replaceAll [0x79, 0x19] [0x79, 0x1b] s).head? = some 0x79 := by
  match s with
  | [] => left; rw [replaceAll]
  | a :: t =>
    rw [replaceAll]
    by_cases hp : [0x79, 0x19].isPrefixOf (a :: t)
    · rw [dif_pos ⟨by decide, hp⟩]
      right
      rfl
    · rw [dif_neg (by tauto)]
      left
      rfl

/-- After globally replacing `79 19` by `79 1b`, no occurrence of `79 19`
remains in the buffer. -/
theorem replaceTen_no_pattern (s : List Nat) :
    ¬ [0x79, 0x19] <:+: replaceAll [0x79, 0x19] [0x79, 0x1b] s := by
  have main : ∀ n s, s.length = n →
      ¬ [0x79, 0x19] <:+: replaceAll [0x79, 0x19] [0x79, 0x1b] s := by
    intro n
    induction n using Nat.strong_induction_on with
    | _ n ih =>
      intro s hs
      match s with
      | [] =>
        intro hinf
        rw [show replaceAll [0x79, 0x19] [0x79, 0x1b] [] = [] from by rw [replaceAll]] at hinf
        have := List.eq_nil_of_infix_nil hinf
        cases this
      | a :: t =>
        rw [replaceAll]
        by_cases hp : [0x79, 0x19].isPrefixOf (a :: t)
        · rw [dif_pos ⟨by decide, hp⟩]
          obtain ⟨rest, hrest⟩ := List.isPrefixOf_iff_prefix.mp hp
          have hdrop : (a :: t).drop [0x79, 0x19].length = rest := by
            rw [← hrest]
            rfl
          rw [hdrop]
          intro hinf
          rcases List.infix_cons_iff.mp hinf with hpre | hinf2
          · obtain ⟨u, hu⟩ := hpre
            injection hu with h1 hu2
            injection hu2 with h2 _
            exact absurd h2 (by decide)
          · rcases List.infix_cons_iff.mp hinf2 with hpre | hinf3
            · obtain ⟨u, hu⟩ := hpre
              injection hu with h1 _
              exact absurd h1 (by decide)
            · have hlt : rest.length < n := by
                have h2 : ([0x79, 0x19] ++ rest).length = (a :: t).length := by rw [hrest]
                simp only [List.length_append, List.length_cons, List.length_nil] at h2
                rw [← hs]
                simp only [List.length_cons]
                omega
              exact (ih rest.length hlt rest rfl) hinf3
        · rw [dif_neg (by tauto)]
          intro hinf
          rcases List.infix_cons_iff.mp hinf with hpre | hinf2
          · obtain ⟨u, hu⟩ := hpre
            injection hu with h1 hu2
            have hh : (replaceAll [0x79, 0x19] [0x79, 0x1b] t).head? = some 0x19 := by
              rw [← hu2]
              rfl
            rcases replaceTen_head t with hcase | hcase
            · rw [hcase] at hh
              cases t with
              | nil => cases hh
              | cons b t2 =>
                injection hh with hb
                subst hb
                subst h1
                exact hp (by simp [List.isPrefixOf])
            · rw [hcase] at hh
              injection hh with hne
              exact absurd hne (by decide)
          · have hlt : t.length < n := by
              rw [← hs, List.length_cons]
              omega
            exact (ih t.length hlt t rfl) hinf2
  exact main s.length s rfl

/-- The `bytes.Replace` of a pattern that does not occur in the buffer is
the identity. -/
theorem replaceAll_noop_of_not_infix (pat new : List Nat) :
    ∀ s, ¬ pat <:+: s → replaceAll pat new s = s := by
  intro s
  induction s with
  | nil => intro _; rw [replaceAll]
  | cons a t ih =>
    intro hni
    rw [replaceAll]
    have hcond : ¬ (pat ≠ [] ∧ pat.isPrefixOf (a :: t)) := by
      rintro ⟨_, hpre⟩
      exact hni (List.isPrefixOf_iff_prefix.mp hpre).isInfix
    rw [dif_neg hcond]
    rw [ih (fun hinf => hni (List.infix_cons_iff.mpr (Or.inr hinf)))]

/-- C9 (amended): the patterns are not pairwise disjoint
(`downgradeSubs_not_disjoint`); as a consequence of the specific overlap,
substitution #14 (`05 79 19` to `05 79 1b`) applied after substitution
#10 (`79 19` to `79 1b`) — the listed order of the patcher — changes
nothing, for every input buffer. -/
theorem sub14_noop_after_sub10 (s : List Nat) :
    replaceAll [0x05, 0x79, 0x19] [0x05, 0x79, 0x1b]
        (replaceAll [0x79, 0x19] [0x79, 0x1b] s) =
      replaceAll [0x79, 0x19] [0x79, 0x1b] s := by
  apply replaceAll_noop_of_not_infix
  intro hinf
  have hsub : [0x79, 0x19] <:+: [0x05, 0x79, 0x19] := ⟨[0x05], [], by decide⟩
  exact replaceTen_no_pattern s (hsub.trans hinf)

/-- Witness for C9 (amended): the theorem applied to the concrete buffer
`05 79 19`. -/
theorem sub14_noop_after_sub10_witness :
    replaceAll [0x05, 0x79, 0x19] [0x05, 0x79, 0x1b]
        (replaceAll [0x79, 0x19] [0x79, 0x1b] [0x05, 0x79, 0x19]) =
      replaceAll [0x79, 0x19] [0x79, 0x1b] [0x05, 0x79, 0x19] :=
  sub14_noop_after_sub10 [0x05, 0x79, 0x19]
/-- A data record always leaves the buffer non-nil. -/
theorem pushData_rawNil (f : Firmware) (a : Nat) (d : List Nat) :
    (pushData f a d).rawNil = false := by
  unfold pushData
  cases hf : f.rawNil <;>
    simp only [hf, if_true, if_false, Bool.false_eq_true, apply_ite Firmware.rawNil] <;>
    split_ifs <;> rfl

/-- After any data record, `rawData` is the (possibly grown and padded)
previous buffer with the record copied in at its address. -/
theorem pushData_rawData (f : Firmware) (a : Nat) (d : List Nat) :
    (pushData f a d).rawData =
      copyInto ((if f.rawNil then [] else f.rawData)
        ++ List.replicate
            (a + d.length - (if f.rawNil then [] else f.rawData).length) 0xFF)
        a d := by
  unfold pushData
  cases hf : f.rawNil <;>
    simp only [hf, if_true, if_false, Bool.false_eq_true,
      apply_ite Firmware.rawData] <;>
    split_ifs with h1 h2 <;>
    first
      | rfl
      | (congr 1
         rw [show a + d.length - _ = 0 by omega]
         simp)

/-- `startOffset` after a data record: the minimum of the address and the
(possibly seeded) previous start offset. -/
theorem pushData_startOffset (f : Firmware) (a : Nat) (d : List Nat) :
    (pushData f a d).startOffset =
      if a % 0x10000 < (if f.rawNil then a % 0x10000 else f.startOffset)
      then a % 0x10000
      else (if f.rawNil then a % 0x10000 else f.startOffset) := by
  unfold pushData
  cases hf : f.rawNil <;>
    simp only [hf, if_true, if_false, Bool.false_eq_true,
      apply_ite Firmware.startOffset] <;>
    split_ifs <;> rfl

/-- `size`/`lastOffset` after a data record: updated from the truncated
result size exactly when `uint16(resultsize)` exceeds
`size + startOffset`, otherwise untouched. -/
theorem pushData_size_fields (f : Firmware) (a : Nat) (d : List Nat) :
    ((a + d.length) % 0x10000 > add16 f.size (pushData f a d).startOffset →
      (pushData f a d).size = sub16 (a + d.length) (pushData f a d).startOffset
      ∧ (pushData f a d).lastOffset =
          sub16 (add16 (pushData f a d).startOffset
            (sub16 (a + d.length) (pushData f a d).startOffset)) 1)
    ∧ (¬ (a + d.length) % 0x10000 > add16 f.size (pushData f a d).startOffset →
      (pushData f a d).size = f.size
      ∧ (pushData f a d).lastOffset = f.lastOffset) := by
  rw [pushData_startOffset]
  unfold pushData
  cases hf : f.rawNil <;>
    simp only [hf, if_true, if_false, Bool.false_eq_true, apply_ite Firmware.size,
      apply_ite Firmware.startOffset, apply_ite Firmware.lastOffset] <;>
    split_ifs with h1 h2 h3 <;>
    constructor <;> intro hc <;>
    first
      | exact ⟨rfl, rfl⟩
      | (exact absurd hc (by simp_all))
      | simp_all

/-- The buffer only grows, up to the end of the record. -/
theorem pushData_rawData_length (f : Firmware) (a : Nat) (d : List Nat) :
    (pushData f a d).rawData.length =
      max (if f.rawNil then [] else f.rawData).length (a + d.length) := by
  rw [pushData_rawData, copyInto_length, List.length_append, List.length_replicate]
  omega

/-- Components of an encoded data record as read back by
`pushRawHexLine`. -/
theorem mkDataLine_parts (a : Nat) (d : List Nat) :
    (mkDataLine a d).length = 4 + d.length
    ∧ (mkDataLine a d).getD 0 0 = d.length
    ∧ (mkDataLine a d).getD 1 0 = a / 256
    ∧ (mkDataLine a d).getD 2 0 = a % 256
    ∧ (mkDataLine a d).getD 3 0 = 0
    ∧ ((mkDataLine a d).drop 4).take d.length = d := by
  refine ⟨?_, rfl, rfl, rfl, rfl, ?_⟩
  · simp [mkDataLine]
    omega
  · show d.take d.length = d
    exact List.take_length d

/-- A well-formed data record is accepted: `pushRawHexLine` returns the
`pushData` state and no error. -/
theorem pushRawHexLine_data (f : Firmware) (a : Nat) (d : List Nat)
    (ha : a < 0x10000) :
    f.pushRawHexLine (mkDataLine a d) = .ok (pushData f a d, none) := by
  obtain ⟨hl, h0, h1, h2, h3, hdata⟩ := mkDataLine_parts a d
  have haddr : a / 256 * 256 + a % 256 = a := by omega
  unfold Firmware.pushRawHexLine
  simp only []
  rw [hl, h0, h1, h2, h3, haddr, hdata]
  rw [if_neg (by omega), if_neg (by omega), if_pos rfl]

/-- Feeding one data record and continuing. -/
theorem pushRecords_cons_data (f : Firmware) (a : Nat) (d : List Nat)
    (rs : List (Nat × List Nat)) (ha : a < 0x10000) :
    pushRecords f ((a, d) :: rs) = pushRecords (pushData f a d) rs := by
  rw [pushRecords, pushRawHexLine_data f a d ha]

/-- C8: for every pair of data records with a gap between them, pushed in
either order into a fresh entity, both pushes are accepted and every
byte in the gap `[aL + |dL|, aH)` of the resulting buffer equals 0xFF
(a contiguous run of exactly the gap length of unprogrammed-flash
padding). -/
theorem gap_bytes_are_ff (aL aH : Nat) (dL dH : List Nat)
    (haL : aL < 0x10000) (haH : aH < 0x10000)
    (hdL : dL.length ≤ 0xFF) (hdH : dH.length ≤ 0xFF)
    (hgap : aL + dL.length ≤ aH) :
    ∃ fLH fHL,
      pushRecords Firmware.init [(aL, dL), (aH, dH)] = .ok (fLH, none)
      ∧ pushRecords Firmware.init [(aH, dH), (aL, dL)] = .ok (fHL, none)
      ∧ ∀ i, aL + dL.length ≤ i → i < aH →
          fLH.rawData.getD i 0 = 0xFF ∧ fHL.rawData.getD i 0 = 0xFF := by
  refine ⟨pushData (pushData Firmware.init aL dL) aH dH,
    pushData (pushData Firmware.init aH dH) aL dL, ?_, ?_, ?_⟩
  · rw [pushRecords_cons_data _ _ _ _ haL, pushRecords_cons_data _ _ _ _ haH]
    rfl
  · rw [pushRecords_cons_data _ _ _ _ haH, pushRecords_cons_data _ _ _ _ haL]
    rfl
  · intro i hi1 hi2
    have hinitnil : Firmware.init.rawNil = true := rfl
    have hinitraw : Firmware.init.rawData = [] := rfl
    constructor
    · -- order low then high
      have hr1 : (pushData Firmware.init aL dL).rawData =
          copyInto (List.replicate (aL + dL.length) 0xFF) aL dL := by
        rw [pushData_rawData, hinitnil]
        simp
      have hl1 : (pushData Firmware.init aL dL).rawData.length = aL + dL.length := by
        rw [hr1, copyInto_length, List.length_replicate]
      have hn1 : (pushData Firmware.init aL dL).rawNil = false := pushData_rawNil _ _ _
      rw [pushData_rawData, hn1]
      simp only [Bool.false_eq_true, if_false]
      rw [copyInto_getD]
      rw [if_neg (by omega)]
      rw [hl1]
      rw [List.getD_append_right _ _ _ _ (by rw [hl1]; omega)]
      rw [hl1, replicate_getD]
      rw [if_pos (by omega)]
    · -- order high then low
      have hr1 : (pushData Firmware.init aH dH).rawData =
          copyInto (List.replicate (aH + dH.length) 0xFF) aH dH := by
        rw [pushData_rawData, hinitnil]
        simp
      have hl1 : (pushData Firmware.init aH dH).rawData.length = aH + dH.length := by
        rw [hr1, copyInto_length, List.length_replicate]
      have hn1 : (pushData Firmware.init aH dH).rawNil = false := pushData_rawNil _ _ _
      rw [pushData_rawData, hn1]
      simp only [Bool.false_eq_true, if_false]
      rw [copyInto_getD]
      rw [if_neg (by omega)]
      rw [List.getD_append _ _ _ _ (by rw [hl1]; omega)]
      rw [hr1, copyInto_getD]
      rw [if_neg (by omega)]
      rw [replicate_getD, if_pos (by omega)]

/-- Witness for C8: two concrete one-byte records at addresses 2 and 6,
in both orders; the three gap bytes are 0xFF. -/
theorem gap_bytes_are_ff_witness :
    ((2 : Nat) < 0x10000 ∧ (6 : Nat) < 0x10000
      ∧ ([1] : List Nat).length ≤ 0xFF ∧ ([2] : List Nat).length ≤ 0xFF
      ∧ 2 + ([1] : List Nat).length ≤ 6)
    ∧ ∃ fLH fHL,
      pushRecords Firmware.init [(2, [1]), (6, [2])] = .ok (fLH, none)
      ∧ pushRecords Firmware.init [(6, [2]), (2, [1])] = .ok (fHL, none)
      ∧ ∀ i, 2 + ([1] : List Nat).length ≤ i → i < 6 →
          fLH.rawData.getD i 0 = 0xFF ∧ fHL.rawData.getD i 0 = 0xFF :=
  ⟨⟨by decide, by decide, by decide, by decide, by decide⟩,
   gap_bytes_are_ff 2 6 [1] [2] (by decide) (by decide) (by decide) (by decide)
     (by decide)⟩
/-- C10: a data record whose `address + length` exceeds 0xFFFF is copied
into the buffer at its full integer range (the buffer grows to at least
`address + length` and the record bytes are present at `address`), while
the `size`/`lastOffset` update works on `address + length` truncated
modulo 2^16: afterwards `startOffset + size` is at most 0xFFFF, strictly
below the record end, so the subsequent trim to
`[startOffset, startOffset + size)` discards record data. -/
theorem data_record_address_overflow_truncation (f : Firmware) (a : Nat) (d : List Nat)
    (ha : a < 0x10000) (hd : d.length ≤ 0xFF) (hover : 0xFFFF < a + d.length)
    (hn1 : f.rawNil = true → f.size = 0)
    (hn2 : f.rawNil = false → f.size + f.startOffset ≤ 0xFFFF)
    (hn3 : f.lastOffset ≤ 0xFFFF) :
    f.pushRawHexLine (mkDataLine a d) = .ok (pushData f a d, none)
    ∧ a + d.length ≤ (pushData f a d).rawData.length
    ∧ ((pushData f a d).rawData.drop a).take d.length = d
    ∧ (pushData f a d).startOffset + (pushData f a d).size ≤ 0xFFFF
    ∧ (pushData f a d).lastOffset ≤ 0xFFFF
    ∧ (pushData f a d).startOffset + (pushData f a d).size < a + d.length := by
  have hamod : a % 0x10000 = a := Nat.mod_eq_of_lt ha
  have hcopy : ((pushData f a d).rawData.drop a).take d.length = d := by
    rw [pushData_rawData]
    rw [copyInto_drop _ _ _ (by rw [List.length_append, List.length_replicate]; omega)]
    exact List.take_left _ _
  have hlen : a + d.length ≤ (pushData f a d).rawData.length := by
    rw [pushData_rawData_length]
    omega
  have hstart := pushData_startOffset f a d
  obtain ⟨hupd, hkeep⟩ := pushData_size_fields f a d
  have hbound : (pushData f a d).startOffset + (pushData f a d).size ≤ 0xFFFF
      ∧ (pushData f a d).lastOffset ≤ 0xFFFF := by
    cases hf : f.rawNil with
    | true =>
      rw [hf] at hstart
      simp only [if_true] at hstart
      rw [hamod, if_neg (lt_irrefl a)] at hstart
      have hsz0 : f.size = 0 := hn1 hf
      have hcond : ¬ (a + d.length) % 0x10000 > add16 f.size (pushData f a d).startOffset := by
        rw [hstart, hsz0]
        unfold add16
        omega
      obtain ⟨hs1, hl1⟩ := hkeep hcond
      rw [hs1, hl1, hstart, hsz0]
      omega
    | false =>
      rw [hf] at hstart
      simp only [Bool.false_eq_true, if_false] at hstart
      rw [hamod] at hstart
      have hsum : f.size + f.startOffset ≤ 0xFFFF := hn2 hf
      have hS : (pushData f a d).startOffset ≤ f.startOffset := by
        rw [hstart]
        split_ifs with hlt
        · omega
        · omega
      by_cases hcond : (a + d.length) % 0x10000 > add16 f.size (pushData f a d).startOffset
      · obtain ⟨hs1, hl1⟩ := hupd hcond
        unfold add16 at hcond
        rw [hs1, hl1]
        unfold sub16 add16
        omega
      · obtain ⟨hs1, hl1⟩ := hkeep hcond
        rw [hs1, hl1]
        omega
  exact ⟨pushRawHexLine_data f a d ha, hlen, hcopy, hbound.1, hbound.2, by omega⟩

/-- Witness for C10: record at address 0xFFF0 with 0x11 bytes pushed into
a fresh entity. -/
theorem data_record_address_overflow_truncation_witness :
    ((0xFFF0 : Nat) < 0x10000
      ∧ (List.replicate 0x11 0xAB).length ≤ 0xFF
      ∧ 0xFFFF < 0xFFF0 + (List.replicate 0x11 0xAB).length
      ∧ (Firmware.init.rawNil = true → Firmware.init.size = 0)
      ∧ (Firmware.init.rawNil = false →
          Firmware.init.size + Firmware.init.startOffset ≤ 0xFFFF)
      ∧ Firmware.init.lastOffset ≤ 0xFFFF)
    ∧ Firmware.init.pushRawHexLine (mkDataLine 0xFFF0 (List.replicate 0x11 0xAB)) =
        .ok (pushData Firmware.init 0xFFF0 (List.replicate 0x11 0xAB), none)
    ∧ 0xFFF0 + (List.replicate 0x11 0xAB).length ≤
        (pushData Firmware.init 0xFFF0 (List.replicate 0x11 0xAB)).rawData.length
    ∧ ((pushData Firmware.init 0xFFF0 (List.replicate 0x11 0xAB)).rawData.drop
          0xFFF0).take (List.replicate 0x11 0xAB).length = List.replicate 0x11 0xAB
    ∧ (pushData Firmware.init 0xFFF0 (List.replicate 0x11 0xAB)).startOffset
        + (pushData Firmware.init 0xFFF0 (List.replicate 0x11 0xAB)).size ≤ 0xFFFF
    ∧ (pushData Firmware.init 0xFFF0 (List.replicate 0x11 0xAB)).lastOffset ≤ 0xFFFF
    ∧ (pushData Firmware.init 0xFFF0 (List.replicate 0x11 0xAB)).startOffset
        + (pushData Firmware.init 0xFFF0 (List.replicate 0x11 0xAB)).size
        < 0xFFF0 + (List.replicate 0x11 0xAB).length := by
  have h := data_record_address_overflow_truncation Firmware.init 0xFFF0
    (List.replicate 0x11 0xAB) (by decide) (by decide) (by decide)
    (by decide) (by decide) (by decide)
  exact ⟨⟨by decide, by decide, by decide, by decide, by decide, by decide⟩,
    h.1, h.2.1, h.2.2.1, h.2.2.2.1, h.2.2.2.2.1, h.2.2.2.2.2⟩
/-- Specification-side measure for C4: the maximum `address + length`
over a record list, folded from `m`. -/
def maxResultSize (m : Nat) (rs : List (Nat × List Nat)) : Nat :=
  rs.foldl (fun acc r => max acc (r.1 + r.2.length)) m

/-- The running maximum never drops below its initial value. -/
theorem maxResultSize_init_le (rs : List (Nat × List Nat)) :
    ∀ m, m ≤ maxResultSize m rs := by
  induction rs with
  | nil => intro m; exact le_refl m
  | cons r rs ih =>
    intro m
    unfold maxResultSize at ih ⊢
    rw [List.foldl_cons]
    exact le_trans (le_max_left m (r.1 + r.2.length)) (ih _)

/-- The running maximum dominates the result size of every record in the
list. -/
theorem maxResultSize_mem_le (rs : List (Nat × List Nat)) :
    ∀ m r, r ∈ rs → r.1 + r.2.length ≤ maxResultSize m rs := by
  induction rs with
  | nil => intro m r hr; cases hr
  | cons q rs ih =>
    intro m r hr
    unfold maxResultSize at ih ⊢
    rw [List.foldl_cons]
    rcases List.mem_cons.mp hr with hr | hr
    · subst hr
      exact le_trans (le_max_right m (r.1 + r.2.length)) (maxResultSize_init_le rs _)
    · exact ih _ r hr

/-- The running maximum of bounded quantities stays bounded. -/
theorem maxResultSize_le_bound (rs : List (Nat × List Nat)) :
    ∀ m b, m ≤ b → (∀ r ∈ rs, r.1 + r.2.length ≤ b) → maxResultSize m rs ≤ b := by
  induction rs with
  | nil => intro m b hm _; exact hm
  | cons q rs ih =>
    intro m b hm hr
    unfold maxResultSize at ih ⊢
    rw [List.foldl_cons]
    refine ih _ b ?_ (fun r h => hr r (List.mem_cons_of_mem q h))
    exact max_le hm (hr q (List.mem_cons_self q rs))

/-- One data record applied to an invariant state: with start offset `s`
not above the record address, a buffer of `m` bytes and `size = m - s`,
the new state has the same start offset, buffer and size extended to the
new maximum result size, and `lastOffset` one below the span end. -/
theorem pushData_step (f : Firmware) (s m a : Nat) (d : List Nat)
    (h1 : f.rawNil = false) (h2 : f.startOffset = s) (h3 : f.size = m - s)
    (h4 : f.rawData.length = m) (h5 : s ≤ m) (h6 : m ≤ 0xFFFF)
    (h7 : s < m → f.lastOffset = m - 1)
    (hsa : s ≤ a) (he : a + d.length ≤ 0xFFFF) :
    (pushData f a d).rawNil = false
    ∧ (pushData f a d).startOffset = s
    ∧ (pushData f a d).size = max m (a + d.length) - s
    ∧ (pushData f a d).rawData.length = max m (a + d.length)
    ∧ (s < max m (a + d.length) →
        (pushData f a d).lastOffset = max m (a + d.length) - 1)
    ∧ max m (a + d.length) ≤ 0xFFFF := by
  have ha : a < 0x10000 := by omega
  have hamod : a % 0x10000 = a := Nat.mod_eq_of_lt ha
  have hS : (pushData f a d).startOffset = s := by
    rw [pushData_startOffset, h1]
    simp only [Bool.false_eq_true, if_false]
    rw [h2, hamod, if_neg (by omega)]
  have hlen : (pushData f a d).rawData.length = max m (a + d.length) := by
    rw [pushData_rawData_length, h1]
    simp only [Bool.false_eq_true, if_false]
    rw [h4]
  obtain ⟨hupd, hkeep⟩ := pushData_size_fields f a d
  rw [hS] at hupd hkeep
  have hadd : add16 f.size s = m := by
    rw [h3]
    unfold add16
    omega
  rw [hadd] at hupd hkeep
  have hemod : (a + d.length) % 0x10000 = a + d.length := Nat.mod_eq_of_lt (by omega)
  rw [hemod] at hupd hkeep
  by_cases hc : a + d.length > m
  · obtain ⟨hsz, hlast⟩ := hupd hc
    have hmax : max m (a + d.length) = a + d.length := by omega
    refine ⟨pushData_rawNil f a d, hS, ?_, by rw [hlen], ?_, by omega⟩
    · rw [hsz, hmax]
      unfold sub16
      omega
    · intro _
      rw [hlast, hmax]
      unfold sub16 add16
      omega
  · obtain ⟨hsz, hlast⟩ := hkeep (by omega)
    have hmax : max m (a + d.length) = m := by omega
    refine ⟨pushData_rawNil f a d, hS, ?_, by rw [hlen], ?_, by omega⟩
    · rw [hsz, hmax, h3]
    · intro hlt
      rw [hmax] at hlt ⊢
      rw [hlast]
      exact h7 hlt

/-- The loader invariant over a record sequence whose addresses stay at
or above the established start offset. -/
theorem pushRecords_invariant (rs : List (Nat × List Nat)) :
    ∀ f s m, f.rawNil = false → f.startOffset = s → f.size = m - s →
      f.rawData.length = m → s ≤ m → m ≤ 0xFFFF →
      (s < m → f.lastOffset = m - 1) →
      (∀ r ∈ rs, r.1 + r.2.length ≤ 0xFFFF ∧ s ≤ r.1) →
      ∃ f1, pushRecords f rs = .ok (f1, none)
        ∧ f1.rawNil = false
        ∧ f1.startOffset = s
        ∧ f1.size = maxResultSize m rs - s
        ∧ f1.rawData.length = maxResultSize m rs
        ∧ (s < maxResultSize m rs → f1.lastOffset = maxResultSize m rs - 1)
        ∧ maxResultSize m rs ≤ 0xFFFF := by
  induction rs with
  | nil =>
    intro f s m h1 h2 h3 h4 h5 h6 h7 _
    exact ⟨f, rfl, h1, h2, h3, h4, h7, h6⟩
  | cons r rs ih =>
    intro f s m h1 h2 h3 h4 h5 h6 h7 h8
    obtain ⟨a, d⟩ := r
    have hr := h8 (a, d) (List.mem_cons_self _ _)
    have ha : a < 0x10000 := by omega
    rw [pushRecords_cons_data f a d rs ha]
    obtain ⟨k1, k2, k3, k4, k5, k6⟩ :=
      pushData_step f s m a d h1 h2 h3 h4 h5 h6 h7 hr.2 hr.1
    have hfold : maxResultSize m ((a, d) :: rs) = maxResultSize (max m (a + d.length)) rs := by
      unfold maxResultSize
      rw [List.foldl_cons]
    rw [hfold]
    exact ih (pushData f a d) s (max m (a + d.length)) k1 k2 k3 k4
      (le_trans h5 (le_max_left m _)) k6 k5
      (fun q hq => ⟨(h8 q (List.mem_cons_of_mem _ hq)).1, (h8 q (List.mem_cons_of_mem _ hq)).2⟩)

/-- The first data record pushed into a fresh entity seeds the start
offset with its address and spans exactly the record. -/
theorem pushData_first (a : Nat) (d : List Nat) (he : a + d.length ≤ 0xFFFF) :
    (pushData Firmware.init a d).rawNil = false
    ∧ (pushData Firmware.init a d).startOffset = a
    ∧ (pushData Firmware.init a d).size = (a + d.length) - a
    ∧ (pushData Firmware.init a d).rawData.length = a + d.length
    ∧ (a < a + d.length →
        (pushData Firmware.init a d).lastOffset = a + d.length - 1) := by
  have ha : a < 0x10000 := by omega
  have hamod : a % 0x10000 = a := Nat.mod_eq_of_lt ha
  have hnil : Firmware.init.rawNil = true := rfl
  have hsz0 : Firmware.init.size = 0 := rfl
  have hS : (pushData Firmware.init a d).startOffset = a := by
    rw [pushData_startOffset, hnil]
    simp only [if_true, hamod]
    rw [if_neg (lt_irrefl a)]
  have hlen : (pushData Firmware.init a d).rawData.length = a + d.length := by
    rw [pushData_rawData_length, hnil]
    simp only [if_true, List.length_nil]
    omega
  obtain ⟨hupd, hkeep⟩ := pushData_size_fields Firmware.init a d
  rw [hS, hsz0] at hupd hkeep
  have hadd : add16 0 a = a := by
    unfold add16
    omega
  rw [hadd] at hupd hkeep
  have hemod : (a + d.length) % 0x10000 = a + d.length := Nat.mod_eq_of_lt (by omega)
  rw [hemod] at hupd hkeep
  by_cases hc : 0 < d.length
  · obtain ⟨hsz, hlast⟩ := hupd (by omega)
    refine ⟨pushData_rawNil _ _ _, hS, ?_, hlen, ?_⟩
    · rw [hsz]
      unfold sub16
      omega
    · intro _
      rw [hlast]
      unfold sub16 add16
      omega
  · obtain ⟨hsz, hlast⟩ := hkeep (by omega)
    refine ⟨pushData_rawNil _ _ _, hS, ?_, hlen, ?_⟩
    · rw [hsz]
      omega
    · intro hlt
      omega

/-- C4 (amended): after a sequence of accepted data records in which
every address is at least the first record's address, every record ends
at or below 0xFFFF, and at least one record is nonempty, `startOffset`
is the minimum (= first) address, `size` is the maximum `address+length`
over all records minus `startOffset`,
`lastOffset = startOffset + size - 1`, and the buffer trimmed to
`[startOffset, startOffset+size)` has length exactly `size`.  (Without
the address-order restriction the claim fails:
`out_of_order_records_break_layout`.) -/
theorem ordered_records_layout_invariant (a0 : Nat) (d0 : List Nat)
    (rest : List (Nat × List Nat))
    (hwf : ∀ r ∈ (a0, d0) :: rest, r.1 + r.2.length ≤ 0xFFFF)
    (hmin : ∀ r ∈ (a0, d0) :: rest, a0 ≤ r.1)
    (hpos : ∃ r ∈ (a0, d0) :: rest, r.2.length ≠ 0) :
    ∃ f, pushRecords Firmware.init ((a0, d0) :: rest) = .ok (f, none)
      ∧ f.startOffset = a0
      ∧ f.size = maxResultSize 0 ((a0, d0) :: rest) - a0
      ∧ f.lastOffset = f.startOffset + f.size - 1
      ∧ f.startOffset + f.size ≤ f.rawData.length
      ∧ ((f.rawData.drop f.startOffset).take f.size).length = f.size := by
  have hwf0 := hwf (a0, d0) (List.mem_cons_self _ _)
  have ha0 : a0 < 0x10000 := by
    simp only [] at hwf0
    omega
  rw [pushRecords_cons_data _ _ _ _ ha0]
  obtain ⟨k1, k2, k3, k4, k5⟩ := pushData_first a0 d0 hwf0
  obtain ⟨f1, hpush, j1, j2, j3, j4, j5, j6⟩ :=
    pushRecords_invariant rest (pushData Firmware.init a0 d0) a0 (a0 + d0.length)
      k1 k2 k3 k4 (by omega) hwf0 k5
      (fun q hq => ⟨(hwf q (List.mem_cons_of_mem _ hq)), hmin q (List.mem_cons_of_mem _ hq)⟩)
  have hfold : maxResultSize 0 ((a0, d0) :: rest) = maxResultSize (a0 + d0.length) rest := by
    unfold maxResultSize
    rw [List.foldl_cons]
    congr 1
    show max 0 (a0 + d0.length) = a0 + d0.length
    omega
  have hMe : a0 + d0.length ≤ maxResultSize (a0 + d0.length) rest :=
    maxResultSize_init_le rest _
  have haM : a0 < maxResultSize (a0 + d0.length) rest := by
    obtain ⟨r, hrmem, hrpos⟩ := hpos
    rcases List.mem_cons.mp hrmem with hr0 | hrtl
    · have e1 : r.2.length = d0.length := by rw [hr0]
      omega
    · have hle := maxResultSize_mem_le rest (a0 + d0.length) r hrtl
      have hge := hmin r hrmem
      omega
  refine ⟨f1, hpush, j2, ?_, ?_, ?_, ?_⟩
  · rw [hfold]
    exact j3
  · rw [j5 haM, j2, j3]
    omega
  · rw [j2, j3, j4]
    omega
  · rw [j2, j3]
    rw [List.length_take, List.length_drop, j4]
    omega

/-- Witness for C4 (amended): two concrete ascending records. -/
theorem ordered_records_layout_invariant_witness :
    ((∀ r ∈ [((0x10 : Nat), ([0xAA] : List Nat)), (0x11, [0xBB])],
        r.1 + r.2.length ≤ 0xFFFF)
      ∧ (∀ r ∈ [((0x10 : Nat), ([0xAA] : List Nat)), (0x11, [0xBB])], 0x10 ≤ r.1)
      ∧ (∃ r ∈ [((0x10 : Nat), ([0xAA] : List Nat)), (0x11, [0xBB])],
          r.2.length ≠ 0))
    ∧ ∃ f, pushRecords Firmware.init [(0x10, [0xAA]), (0x11, [0xBB])] = .ok (f, none)
      ∧ f.startOffset = 0x10
      ∧ f.size = maxResultSize 0 [(0x10, [0xAA]), (0x11, [0xBB])] - 0x10
      ∧ f.lastOffset = f.startOffset + f.size - 1
      ∧ f.startOffset + f.size ≤ f.rawData.length
      ∧ ((f.rawData.drop f.startOffset).take f.size).length = f.size :=
  ⟨⟨by decide, by decide, by decide⟩,
   ordered_records_layout_invariant 0x10 [0xAA] [(0x11, [0xBB])]
     (by decide) (by decide) (by decide)⟩
/-- Encoding of a decoded signature record (`recordType` 0xfd). -/
def mkSigLine (a : Nat) (d : List Nat) : List Nat :=
  [d.length, a / 256, a % 256, 0xfd] ++ d

/-- Components of an encoded signature record (type 0xfd) as read back
by `pushRawHexLine`. -/
theorem mkSigLine_parts (a : Nat) (d : List Nat) :
    (mkSigLine a d).length = 4 + d.length
    ∧ (mkSigLine a d).getD 0 0 = d.length
    ∧ (mkSigLine a d).getD 1 0 = a / 256
    ∧ (mkSigLine a d).getD 2 0 = a % 256
    ∧ (mkSigLine a d).getD 3 0 = 0xfd
    ∧ ((mkSigLine a d).drop 4).take d.length = d := by
  refine ⟨?_, rfl, rfl, rfl, rfl, ?_⟩
  · simp [mkSigLine]
    omega
  · show d.take d.length = d
    exact List.take_length d

/-- A well-formed signature record dispatches to `pushSignature`. -/
theorem pushRawHexLine_sig (f : Firmware) (a : Nat) (d : List Nat)
    (ha : a < 0x10000) :
    f.pushRawHexLine (mkSigLine a d) = .ok (pushSignature f a d) := by
  obtain ⟨hl, h0, h1, h2, h3, hdata⟩ := mkSigLine_parts a d
  have haddr : a / 256 * 256 + a % 256 = a := by omega
  unfold Firmware.pushRawHexLine
  simp only []
  rw [hl, h0, h1, h2, h3, haddr, hdata]
  rw [if_neg (by omega), if_neg (by omega), if_neg (by decide), if_pos rfl]

/-- C7 (amended): a signature record with `address + length > 256` is
rejected by `pushRawHexLine` with the out-of-bounds error and no
signature bytes are copied (only `hasSignature` is set, before the
check); a record with `address + length <= 256` is copied into the
signature field at its address with `hasSignature` set.  The error is
not fatal to the HEX load: the scanner loop body (`processLine`)
discards it and returns normally, so the load continues
(see `oob_signature_record_not_fatal` for a whole load that still
succeeds). -/
theorem signature_record_spec (f : Firmware) (a : Nat) (d : List Nat)
    (ha : a < 0x10000) :
    (0x100 < a + d.length →
      f.pushRawHexLine (mkSigLine a d) =
        .ok ({ f with hasSignature := true },
             some "invalid signature data, out of bounds"))
    ∧ (a + d.length ≤ 0x100 →
      f.pushRawHexLine (mkSigLine a d) =
        .ok ({ f with
                hasSignature := true
                signature := copyInto f.signature a d }, none))
    ∧ (∀ line : List Char, ∀ c : Char,
        hexDecode line = some (mkSigLine a d) →
        0x100 < a + d.length →
        processLine f (c :: line) = .ok { f with hasSignature := true }) := by
  have hpush := pushRawHexLine_sig f a d ha
  refine ⟨?_, ?_, ?_⟩
  · intro hoob
    rw [hpush]
    unfold pushSignature
    rw [if_pos hoob]
  · intro hin
    rw [hpush]
    unfold pushSignature
    rw [if_neg (by omega)]
  · intro line c hdec hoob
    show (match hexDecode line with
      | none => GoResult.ok f
      | some hbytes =>
        if hbytes.length < 4 ∨ (hbytes.getD 3 0 ≠ 0x00 ∧ hbytes.getD 3 0 ≠ 0xfd) then
          GoResult.ok f
        else
          match f.pushRawHexLine hbytes with
          | .crash => .crash
          | .ok (f1, _) => .ok f1) = .ok { f with hasSignature := true }
    rw [hdec]
    simp only []
    rw [if_neg ?hfilter]
    case hfilter =>
      obtain ⟨hl, _, _, _, h3, _⟩ := mkSigLine_parts a d
      rw [hl, h3]
      push_neg
      exact ⟨by omega, fun _ => by decide⟩
    rw [hpush]
    unfold pushSignature
    rw [if_pos hoob]

/-- First data line of the C7 counterexample input: 0x40 bytes at
address 0, ending with the stored CRC bytes `db c9`. -/
def c7line0 : List Char :=
  ":400000000000000000000000000000000000000000000000000000000000000000000000000000000000000000000000000000000000000000000000000000000000dbc9".toList

/-- The out-of-bounds signature line of the C7 counterexample: record
type 0xfd, address 0x00f8, length 0x10, so `address + length = 0x108 >
0x100`. -/
def c7sigLine : List Char :=
  ":1000f8fd11111111111111111111111111111111".toList

/-- Data line at address 0x40 carrying the end marker. -/
def c7line40 : List Char :=
  ":40004000fec0adde000000000000000000000000000000000000000000000000000000000000000000000000000000000000000000000000000000000000000000000000".toList

/-- All-zero 0x40-byte data line at the address given by four hex digit
characters. -/
def c7zeroLine (a1 a2 a3 a4 : Char) : List Char :=
  ":40".toList ++ [a1, a2, a3, a4] ++ "00".toList ++ List.replicate 128 '0'

/-- The 17 lines of the C7 counterexample HEX input: a valid 0x400-byte
TI image in 16 data records plus one out-of-bounds signature record. -/
def c7lines : List (List Char) :=
  [c7line0, c7sigLine, c7line40,
   c7zeroLine '0' '0' '8' '0', c7zeroLine '0' '0' 'c' '0',
   c7zeroLine '0' '1' '0' '0', c7zeroLine '0' '1' '4' '0',
   c7zeroLine '0' '1' '8' '0', c7zeroLine '0' '1' 'c' '0',
   c7zeroLine '0' '2' '0' '0', c7zeroLine '0' '2' '4' '0',
   c7zeroLine '0' '2' '8' '0', c7zeroLine '0' '2' 'c' '0',
   c7zeroLine '0' '3' '0' '0', c7zeroLine '0' '3' '4' '0',
   c7zeroLine '0' '3' '8' '0', c7zeroLine '0' '3' 'c' '0']

/-- The trimmed buffer the load produces: zeros, stored CRC `db c9`, the
end marker, zero padding to 0x400 bytes. -/
def c7image : List Nat :=
  List.replicate 0x3e 0 ++ [0xdb, 0xc9] ++ tiMagic ++ List.replicate (0x400 - 0x44) 0

/-- Counterexample to C7: the input contains a signature record with
`address + length = 0x108 > 256`, for which `pushRawHexLine` fails with
the out-of-bounds error — yet the overall HEX load reports success
(classifying the image as TI), because `ParseFirmwareHex` discards
per-record errors; no signature bytes were copied (the signature field
is still all zeros) while `hasSignature` was set to true. -/
theorem oob_signature_record_not_fatal :
    hexDecode (c7sigLine.drop 1) =
      some ([0x10, 0x00, 0xf8, 0xfd] ++ List.replicate 0x10 0x11)
    ∧ (0xf8 : Nat) + 0x10 > 0x100
    ∧ c7sigLine ∈ c7lines
    ∧ parseFirmwareHexLines c7lines =
        .ok (.ok { rawData := c7image, rawNil := false, size := 0x44,
                   startOffset := 0, lastOffset := 0x43, hasBL := false,
                   crc := 0xc9db, tailPos := 0x3e,
                   signature := List.replicate 256 0, hasSignature := true,
                   targetType := .ti }) := by
  decide

/-- Witness for C7 (amended): the record at address 0xf8 with 0x10 bytes
(out of bounds) against a fresh entity. -/
theorem signature_record_spec_witness :
    ((0xf8 : Nat) < 0x10000)
    ∧ ((0x100 < 0xf8 + (List.replicate 0x10 0x11 : List Nat).length →
        Firmware.init.pushRawHexLine (mkSigLine 0xf8 (List.replicate 0x10 0x11)) =
          .ok ({ Firmware.init with hasSignature := true },
               some "invalid signature data, out of bounds"))
      ∧ (0xf8 + (List.replicate 0x10 0x11 : List Nat).length ≤ 0x100 →
        Firmware.init.pushRawHexLine (mkSigLine 0xf8 (List.replicate 0x10 0x11)) =
          .ok ({ Firmware.init with
                  hasSignature := true
                  signature := copyInto Firmware.init.signature 0xf8
                    (List.replicate 0x10 0x11) }, none))
      ∧ (∀ line : List Char, ∀ c : Char,
          hexDecode line = some (mkSigLine 0xf8 (List.replicate 0x10 0x11)) →
          0x100 < 0xf8 + (List.replicate 0x10 0x11 : List Nat).length →
          processLine Firmware.init (c :: line) =
            .ok { Firmware.init with hasSignature := true })) :=
  ⟨by decide,
   signature_record_spec Firmware.init 0xf8 (List.replicate 0x10 0x11) (by decide)⟩
